import Mathlib

/-!
Verification of the GiftScan scan/diff/analyze pipeline.

Shallow embedding of the core services of `backend/app/services`:
`sales_tracker.py` (rarity tier, confidence, listing reconciliation),
`scanner.py` (opportunity detection per (slug, tier) group),
`rare_detector.py` (rare-at-floor alerts), `normalization/mapper.py`
(name normalization) and `rate_limiting/limiter.py` (sliding-window
rate limiter).  Monetary amounts (`Decimal` in the source) are modelled
as rationals, timestamps as integers counting seconds.
-/

namespace GiftScan

/-! ### Rarity tier — `sales_tracker._get_rarity_tier` -/

/-- Attribute maps (`attributes: Optional[dict]`) are modelled as optional
association lists.  `attributes and attributes.get("Backdrop") == "Black"`
is false for `None` and for the empty dict; an empty association list has
no `"Backdrop"` key, so one lookup covers all cases. -/
def backdropBlack (attributes : Option (List (String × String))) : Bool :=
  match attributes with
  | none => false
  | some l => l.lookup "Backdrop" == some "Black"

/-- `len(set(str(serial))) == 1` for a positive serial. -/
def allDigitsSame (n : ℕ) : Bool :=
  (Nat.digits 10 n).dedup.length == 1

/-- The special serial numbers of `_get_rarity_tier`.  The source tests
`str(serial) in {"777", "420", "1234", "5555", "6969", "8888"}`; decimal
printing is injective on naturals, so numeric membership is equivalent. -/
def specialSerials : List ℕ := [777, 420, 1234, 5555, 6969, 8888]

/-- Embedding of `_get_rarity_tier(serial, attributes)` from
`sales_tracker.py`.  Note `if not serial` in Python is true both for
`None` and for `0`, so serial `0` takes the `"unknown"` branch. -/
def getRarityTier (serial : Option ℕ) (attributes : Option (List (String × String))) : String :=
  match serial with
  | none => "unknown"
  | some n =>
    if n = 0 then "unknown"
    else if n < 100 then "ultra_rare"
    else if backdropBlack attributes then "ultra_rare"
    else if n < 1000 then "rare"
    else if n ∈ specialSerials then "rare"
    else if allDigitsSame n then "rare"
    else if n < 5000 then "uncommon"
    else "common"

/-- The six ordered first-match-wins rules of spec §3, amended only at
rule 1: a serial that is missing **or zero** yields `"unknown"` (the
source treats `0` as missing). -/
def specRarityTier (serial : Option ℕ) (attributes : Option (List (String × String))) : String :=
  match serial with
  | none => "unknown"
  | some n =>
    if n = 0 then "unknown"
    else if n < 100 ∨ backdropBlack attributes then "ultra_rare"
    else if n < 1000 then "rare"
    else if n ∈ specialSerials ∨ allDigitsSame n then "rare"
    else if n < 5000 then "uncommon"
    else "common"

/-- C2, counterexample: serial `0` is in range `0 ≤ n < 100`, yet the
source returns `"unknown"`, not `"ultra_rare"`, because Python's
`if not serial` also catches `0`. -/
theorem rarity_zero_serial_not_ultra_rare :
    getRarityTier (some 0) none = "unknown" ∧ getRarityTier (some 0) none ≠ "ultra_rare" := by
  constructor
  · rfl
  · decide

/-- C2 (amended): `_get_rarity_tier` implements the spec's six ordered
rules with first match winning, except that serial `0` is treated like a
missing serial (`"unknown"`); in particular `ultra_rare` is guaranteed
only for `1 ≤ n < 100`. -/
theorem rarity_tier_matches_spec_rules (serial : Option ℕ)
    (attributes : Option (List (String × String))) :
    getRarityTier serial attributes = specRarityTier serial attributes := by
  cases serial with
  | none => rfl
  | some n =>
    unfold getRarityTier specRarityTier
    by_cases h0 : n = 0
    · simp [h0]
    · by_cases h100 : n < 100
      · simp [h0, h100]
      · by_cases hb : backdropBlack attributes
        · simp [h0, h100, hb]
        · by_cases h1000 : n < 1000
          · simp [h0, h100, hb, h1000]
          · by_cases hmem : n ∈ specialSerials
            · simp [h0, h100, hb, h1000, hmem]
            · by_cases hsame : allDigitsSame n
              · simp [h0, h100, hb, h1000, hmem, hsame]
              · by_cases h5000 : n < 5000 <;>
                  simp [h0, h100, hb, h1000, hmem, hsame, h5000]

end GiftScan

namespace GiftScan

/-! ### Confidence — `sales_tracker._calculate_confidence` -/

/-- Embedding of `_calculate_confidence(total_count, recent_count,
days_since_last)` from `sales_tracker.py`.  Floats are modelled as
rationals; the constants `0.3` and `0.4` are exactly `3/10` and `4/10`. -/
def calculateConfidence (total_count recent_count : ℕ) (days_since_last : ℤ) : ℚ :=
  if total_count = 0 then 0
  else
    let base : ℚ := min ((total_count : ℚ) / 10) 1
    let recencyBoost : ℚ := min ((recent_count : ℚ) / 3) (3/10)
    let stalenessPenalty : ℚ :=
      if days_since_last > 14 then min (((days_since_last : ℚ) - 14) / 16) (4/10) else 0
    max 0 (min 1 (base + recencyBoost - stalenessPenalty))

/-- The confidence formula as the spec (§3) writes it:
`clip(min(n/10, 1) + min(recent/3, 0.3) − max((days_since_last − 14)/16, 0))`
— the staleness penalty is un-capped. -/
def specConfidence (total_count recent_count : ℕ) (days_since_last : ℤ) : ℚ :=
  max 0 (min 1
    (min ((total_count : ℚ) / 10) 1 + min ((recent_count : ℚ) / 3) (3/10)
      - max (((days_since_last : ℚ) - 14) / 16) 0))

/-- C3, counterexample: at `total = 10`, `recent = 3`,
`days_since_last = 100` the source's staleness penalty is capped at
`0.4` and yields confidence `0.9`, while the claimed formula's un-capped
penalty `(100 − 14)/16 = 5.375` drives the clipped result to `0`. -/
theorem confidence_cap_counterexample :
    calculateConfidence 10 3 100 = 9/10 ∧ specConfidence 10 3 100 = 0 ∧
      calculateConfidence 10 3 100 ≠ specConfidence 10 3 100 := by
  refine ⟨by norm_num [calculateConfidence], by norm_num [specConfidence], by
    norm_num [calculateConfidence, specConfidence]⟩

/-- C3 (amended): for every total count `n ≥ 1`, the confidence equals
`clip(min(n/10, 1) + min(recent/3, 0.3) − min(max((d − 14)/16, 0), 0.4))`
— the spec's formula with the staleness penalty additionally capped at
`0.4`, so the penalty does **not** grow without bound. -/
theorem confidence_formula (total_count recent_count : ℕ) (days_since_last : ℤ)
    (htotal : 1 ≤ total_count) (hdays : 0 ≤ days_since_last) :
    calculateConfidence total_count recent_count days_since_last =
      max 0 (min 1
        (min ((total_count : ℚ) / 10) 1 + min ((recent_count : ℚ) / 3) (3/10)
          - min (max (((days_since_last : ℚ) - 14) / 16) 0) (4/10))) := by
  have h0 : total_count ≠ 0 := by omega
  unfold calculateConfidence
  rw [if_neg h0]
  by_cases h14 : days_since_last > 14
  · have hq : (0 : ℚ) ≤ ((days_since_last : ℚ) - 14) / 16 := by
      have : (14 : ℚ) ≤ (days_since_last : ℚ) := by exact_mod_cast h14.le
      have h' : (0 : ℚ) ≤ (days_since_last : ℚ) - 14 := by linarith
      positivity
    rw [if_pos h14, max_eq_left hq]
  · have hq : ((days_since_last : ℚ) - 14) / 16 ≤ 0 := by
      have : (days_since_last : ℚ) ≤ 14 := by exact_mod_cast not_lt.mp h14
      have h' : (days_since_last : ℚ) - 14 ≤ 0 := by linarith
      have h16 : (0 : ℚ) < 16 := by norm_num
      exact div_nonpos_of_nonpos_of_nonneg h' h16.le
    rw [if_neg h14, max_eq_right hq]
    norm_num

/-- C3 witness: the amended formula, evaluated at a concrete input
satisfying the hypotheses. -/
theorem confidence_formula_witness :
    calculateConfidence 4 1 20 =
      max 0 (min 1
        (min ((4 : ℚ) / 10) 1 + min ((1 : ℚ) / 3) (3/10)
          - min (max ((((20 : ℤ) : ℚ) - 14) / 16) 0) (4/10))) :=
  confidence_formula 4 1 20 (by norm_num) (by norm_num)

end GiftScan

namespace GiftScan

/-! ### Listing reconciliation — `SalesTracker.sync_all_listings`

The database tables `gift_listings` and `gift_sales` (models
`GiftListing`, `GiftSale`) are modelled as lists of rows; the inbound
scan (`list[NFTListing]`) as a list of observations.  Timestamps are
integers counting seconds, so `timedelta(hours=1)` is `3600`. -/

/-- An inbound observation (`NFTListing` of `tonapi_enhanced.py`):
the fields `sync_all_listings` reads. -/
structure NFTObservation where
  nft_address : String
  gift_slug : String
  serial_number : Option ℕ
  price_ton : ℚ
  marketplace : String
  attributes : Option (List (String × String))
deriving DecidableEq, Repr

/-- A `gift_listings` row (`app/models/listing.py`). -/
structure GiftListing where
  nft_address : String
  gift_slug : String
  serial_number : Option ℕ
  rarity_tier : String
  price_ton : ℚ
  marketplace : String
  first_seen_at : ℤ
  last_seen_at : ℤ
  sold_at : Option ℤ
deriving DecidableEq, Repr

/-- A `gift_sales` row (`app/models/sale.py`), minus the surrogate id. -/
structure GiftSale where
  gift_slug : String
  nft_address : String
  serial_number : Option ℕ
  rarity_tier : String
  sale_price_ton : ℚ
  marketplace : String
  detected_at : ℤ
deriving DecidableEq, Repr

/-- The two tables `sync_all_listings` reads and writes. -/
structure DB where
  listings : List GiftListing
  sales : List GiftSale
deriving DecidableEq, Repr

/-- `cutoff = now - timedelta(hours=1)`. -/
def hourCutoff (now : ℤ) : ℤ := now - 3600

/-- `already_sold`: addresses of sales with `detected_at >= cutoff`. -/
def alreadySold (sales : List GiftSale) (now : ℤ) : List String :=
  (sales.filter (fun s => hourCutoff now ≤ s.detected_at)).map (·.nft_address)

/-- The key set of the `inbound` dict. -/
def inboundAddrs (inb : List NFTObservation) : List String :=
  inb.map (·.nft_address)

/-- The value the `inbound` dict holds for an address: the dict is built
left to right, so the last observation with the address wins. -/
def inboundLast (inb : List NFTObservation) (a : String) : Option NFTObservation :=
  inb.reverse.find? (fun l => l.nft_address == a)

/-- The `GiftSale` appended for a disappeared row: price, rarity, serial
and marketplace all come from the stored `gift_listings` row. -/
def saleOf (row : GiftListing) (now : ℤ) : GiftSale :=
  { gift_slug := row.gift_slug
    nft_address := row.nft_address
    serial_number := row.serial_number
    rarity_tier := row.rarity_tier
    sale_price_ton := row.price_ton
    marketplace := row.marketplace
    detected_at := now }

/-- `db_row.sold_at = now`. -/
def markSold (row : GiftListing) (now : ℤ) : GiftListing :=
  { row with sold_at := some now }

/-- `row.last_seen_at = now; row.price_ton = listing.price_ton`. -/
def updateSeen (row : GiftListing) (l : NFTObservation) (now : ℤ) : GiftListing :=
  { row with last_seen_at := now, price_ton := l.price_ton }

/-- Per-row effect of one `sync_all_listings` call on a stored row.
Rows with `sold_at` set are outside `active_db` and untouched.  An
active row whose address is inbound is updated (step 5 of the source);
otherwise the disappeared-branch (step 3) applies: skip if a sale was
recorded within the hour or the stored price is non-positive, else mark
sold and emit the `GiftSale`.  The two branches touch disjoint address
sets, so folding them into one pass per row is faithful. -/
def syncRow (inb : List NFTObservation) (sold : List String) (now : ℤ)
    (row : GiftListing) : GiftListing × List GiftSale :=
  match row.sold_at with
  | some _ => (row, [])
  | none =>
    if row.nft_address ∈ inboundAddrs inb then
      match inboundLast inb row.nft_address with
      | some l => (updateSeen row l now, [])
      | none => (row, [])
    else if row.nft_address ∈ sold then (row, [])
    else if 0 < row.price_ton then (markSold row now, [saleOf row now])
    else (row, [])

/-- A fresh `gift_listings` row inserted for a new inbound address;
rarity is computed at insert time from the observation. -/
def newListing (l : NFTObservation) (now : ℤ) : GiftListing :=
  { nft_address := l.nft_address
    gift_slug := l.gift_slug
    serial_number := l.serial_number
    rarity_tier := getRarityTier l.serial_number l.attributes
    price_ton := l.price_ton
    marketplace := l.marketplace
    first_seen_at := now
    last_seen_at := now
    sold_at := none }

/-- Addresses of currently-active rows (`sold_at IS NULL`), the key set
of `active_db`. -/
def activeAddrs (listings : List GiftListing) : List String :=
  (listings.filter (fun r => r.sold_at.isNone)).map (·.nft_address)

/-- The deduplicated inbound observations (one per address, last wins),
as the `inbound` dict yields them. -/
def inboundDedup (inb : List NFTObservation) : List NFTObservation :=
  (inboundAddrs inb).dedup.filterMap (inboundLast inb)

/-- The sales appended by one call (step 3 of the source). -/
def syncNewSales (db : DB) (inb : List NFTObservation) (now : ℤ) : List GiftSale :=
  db.listings.flatMap (fun r => (syncRow inb (alreadySold db.sales now) now r).2)

/-- The rows inserted by one call (step 4): inbound addresses that are
not keys of `active_db`. -/
def syncInserts (db : DB) (inb : List NFTObservation) (now : ℤ) : List GiftListing :=
  ((inboundDedup inb).filter
    (fun l => !(activeAddrs db.listings).contains l.nft_address)).map
      (fun l => newListing l now)

/-- Embedding of `SalesTracker.sync_all_listings(session, listings)`:
the updated tables plus the returned count of new sales. -/
def syncAllListings (db : DB) (inb : List NFTObservation) (now : ℤ) : DB × ℕ :=
  let sold := alreadySold db.sales now
  let rows := db.listings.map (fun r => (syncRow inb sold now r).1)
  ({ listings := rows ++ syncInserts db inb now
     sales := db.sales ++ syncNewSales db inb now },
   (syncNewSales db inb now).length)

end GiftScan

namespace GiftScan

/-! ### Reconciliation lemmas -/

/-- The conditions under which step 3 of `sync_all_listings` records a
sale for a stored row. -/
def sellsNow (inb : List NFTObservation) (sold : List String)
    (row : GiftListing) : Prop :=
  row.sold_at = none ∧ row.nft_address ∉ inboundAddrs inb ∧
    row.nft_address ∉ sold ∧ 0 < row.price_ton

theorem inboundLast_addr {inb : List NFTObservation} {a : String} {l : NFTObservation}
    (h : inboundLast inb a = some l) : l.nft_address = a := by
  have := List.find?_some h
  simpa using this

theorem inboundLast_mem_addrs {inb : List NFTObservation} {a : String} {l : NFTObservation}
    (h : inboundLast inb a = some l) : a ∈ inboundAddrs inb := by
  have hm : l ∈ inb.reverse := List.mem_of_find?_eq_some h
  rw [List.mem_reverse] at hm
  have ha := inboundLast_addr h
  subst ha
  exact List.mem_map_of_mem (·.nft_address) hm

theorem mem_inboundAddrs_exists {inb : List NFTObservation} {a : String}
    (h : a ∈ inboundAddrs inb) : ∃ l, inboundLast inb a = some l := by
  rcases List.mem_map.mp h with ⟨l, hl, rfl⟩
  have hmem : l ∈ inb.reverse := List.mem_reverse.mpr hl
  have hsome : (inb.reverse.find? (fun x => x.nft_address == l.nft_address)).isSome :=
    List.find?_isSome.mpr ⟨l, hmem, by simp⟩
  rw [inboundLast]
  exact Option.isSome_iff_exists.mp hsome

theorem syncRow_sells {inb : List NFTObservation} {sold : List String} {now : ℤ}
    {row : GiftListing} (h : sellsNow inb sold row) :
    syncRow inb sold now row = (markSold row now, [saleOf row now]) := by
  obtain ⟨hs, hni, hnsold, hp⟩ := h
  unfold syncRow
  rw [hs]
  simp [hni, hnsold, hp]

theorem syncRow_not_sells {inb : List NFTObservation} {sold : List String} {now : ℤ}
    {row : GiftListing} (h : ¬ sellsNow inb sold row) :
    ((syncRow inb sold now row).1).sold_at = row.sold_at ∧
      (syncRow inb sold now row).2 = [] := by
  unfold syncRow
  cases hsa : row.sold_at with
  | some t => simp [hsa]
  | none =>
    by_cases hmem : row.nft_address ∈ inboundAddrs inb
    · simp only [hmem, if_pos]
      cases hfind : inboundLast inb row.nft_address with
      | some l => simp [updateSeen, hsa]
      | none => simp [hsa]
    · by_cases hsold : row.nft_address ∈ sold
      · simp [hmem, hsold, hsa]
      · by_cases hp : 0 < row.price_ton
        · exact absurd ⟨hsa, hmem, hsold, hp⟩ h
        · simp [hmem, hsold, hp, hsa]

theorem syncRow_addr (inb : List NFTObservation) (sold : List String) (now : ℤ)
    (row : GiftListing) : ((syncRow inb sold now row).1).nft_address = row.nft_address := by
  unfold syncRow
  cases row.sold_at with
  | some t => rfl
  | none =>
    by_cases hmem : row.nft_address ∈ inboundAddrs inb
    · simp only [hmem, if_pos]
      cases inboundLast inb row.nft_address with
      | some l => rfl
      | none => rfl
    · by_cases hsold : row.nft_address ∈ sold
      · simp [hmem, hsold]
      · by_cases hp : 0 < row.price_ton
        · simp [hmem, hsold, hp, markSold]
        · simp [hmem, hsold, hp]

theorem syncRow_sale_addr {inb : List NFTObservation} {sold : List String} {now : ℤ}
    {row : GiftListing} : ∀ s ∈ (syncRow inb sold now row).2,
      s.nft_address = row.nft_address := by
  intro s hs
  by_cases h : sellsNow inb sold row
  · rw [syncRow_sells h] at hs
    simp at hs
    subst hs
    rfl
  · rw [(syncRow_not_sells h).2] at hs
    simp at hs

theorem syncRow_update {inb : List NFTObservation} {sold : List String} {now : ℤ}
    {row : GiftListing} {l : NFTObservation} (hs : row.sold_at = none)
    (hl : inboundLast inb row.nft_address = some l) :
    syncRow inb sold now row = (updateSeen row l now, []) := by
  have hmem := inboundLast_mem_addrs hl
  unfold syncRow
  rw [hs]
  simp [hmem, hl]

end GiftScan

namespace GiftScan

theorem flatMap_sales_filter_not_mem (inb : List NFTObservation) (sold : List String)
    (now : ℤ) (rows : List GiftListing) (a : String)
    (ha : a ∉ rows.map (·.nft_address)) :
    ((rows.flatMap (fun r => (syncRow inb sold now r).2)).filter
      (fun s => s.nft_address == a)) = [] := by
  induction rows with
  | nil => rfl
  | cons r rs ih =>
    simp only [List.map_cons, List.mem_cons, not_or] at ha
    obtain ⟨hra, hrs⟩ := ha
    rw [List.flatMap_cons, List.filter_append, ih hrs, List.append_nil]
    rw [List.filter_eq_nil_iff]
    intro s hs
    have hsa := syncRow_sale_addr s hs
    simp only [hsa, beq_iff_eq]
    exact fun hc => hra hc.symm

theorem flatMap_sales_filter_eq (inb : List NFTObservation) (sold : List String)
    (now : ℤ) (rows : List GiftListing)
    (hnd : (rows.map (·.nft_address)).Nodup) (row : GiftListing) (hrow : row ∈ rows)
    (hsells : sellsNow inb sold row) :
    ((rows.flatMap (fun r => (syncRow inb sold now r).2)).filter
      (fun s => s.nft_address == row.nft_address)) = [saleOf row now] := by
  induction rows with
  | nil => exact absurd hrow (List.not_mem_nil row)
  | cons r rs ih =>
    rw [List.map_cons, List.nodup_cons] at hnd
    obtain ⟨hhead, htail⟩ := hnd
    rw [List.flatMap_cons, List.filter_append]
    rcases List.mem_cons.mp hrow with rfl | hmem
    · rw [syncRow_sells hsells]
      rw [flatMap_sales_filter_not_mem inb sold now rs row.nft_address hhead]
      simp [saleOf]
    · have hne : r.nft_address ≠ row.nft_address := by
        intro hcontra
        exact hhead (hcontra ▸ List.mem_map_of_mem (·.nft_address) hmem)
      have hfirst : ((syncRow inb sold now r).2).filter
          (fun s => s.nft_address == row.nft_address) = [] := by
        rw [List.filter_eq_nil_iff]
        intro s hs
        have := syncRow_sale_addr s hs
        simp [this, hne]
      rw [hfirst, List.nil_append]
      exact ih htail hmem

theorem flatMap_sales_filter_nil (inb : List NFTObservation) (sold : List String)
    (now : ℤ) (rows : List GiftListing)
    (hnd : (rows.map (·.nft_address)).Nodup) (row : GiftListing) (hrow : row ∈ rows)
    (hno : ¬ sellsNow inb sold row) :
    ((rows.flatMap (fun r => (syncRow inb sold now r).2)).filter
      (fun s => s.nft_address == row.nft_address)) = [] := by
  induction rows with
  | nil => rfl
  | cons r rs ih =>
    rw [List.map_cons, List.nodup_cons] at hnd
    obtain ⟨hhead, htail⟩ := hnd
    rw [List.flatMap_cons, List.filter_append]
    rcases List.mem_cons.mp hrow with rfl | hmem
    · rw [(syncRow_not_sells hno).2]
      rw [flatMap_sales_filter_not_mem inb sold now rs row.nft_address hhead]
      rfl
    · have hne : r.nft_address ≠ row.nft_address := by
        intro hcontra
        exact hhead (hcontra ▸ List.mem_map_of_mem (·.nft_address) hmem)
      have hfirst : ((syncRow inb sold now r).2).filter
          (fun s => s.nft_address == row.nft_address) = [] := by
        rw [List.filter_eq_nil_iff]
        intro s hs
        have := syncRow_sale_addr s hs
        simp [this, hne]
      rw [hfirst, List.nil_append]
      exact ih htail hmem

end GiftScan

namespace GiftScan

theorem syncRow_skip {inb : List NFTObservation} {sold : List String} {now : ℤ}
    {row : GiftListing} (hs : row.sold_at = none)
    (hni : row.nft_address ∉ inboundAddrs inb)
    (hskip : row.nft_address ∈ sold ∨ ¬ 0 < row.price_ton) :
    syncRow inb sold now row = (row, []) := by
  unfold syncRow
  rw [hs]
  rcases hskip with h | h
  · simp [hni, h]
  · by_cases h2 : row.nft_address ∈ sold
    · simp [hni, h2]
    · simp [hni, h2, h]

theorem mem_syncInserts_sold_at_none {db : DB} {inb : List NFTObservation} {now : ℤ} :
    ∀ x ∈ syncInserts db inb now, x.sold_at = none := by
  intro x hx
  unfold syncInserts at hx
  rcases List.mem_map.mp hx with ⟨l, _, rfl⟩
  rfl

theorem mem_syncInserts_inbound {db : DB} {inb : List NFTObservation} {now : ℤ} :
    ∀ x ∈ syncInserts db inb now, x.nft_address ∈ inboundAddrs inb := by
  intro x hx
  unfold syncInserts at hx
  rcases List.mem_map.mp hx with ⟨l, hl, rfl⟩
  have hl' : l ∈ inboundDedup inb := (List.mem_filter.mp hl).1
  unfold inboundDedup at hl'
  rcases List.mem_filterMap.mp hl' with ⟨a, ha, hlast⟩
  have := inboundLast_addr hlast
  show l.nft_address ∈ inboundAddrs inb
  rw [this]
  exact List.mem_dedup.mp ha

/-- C1: in one `sync_all_listings` call, every active row whose address is
absent from the inbound set, has a positive stored price and no sale in
the last hour, is marked sold at `now` and gets **exactly one** appended
`GiftSale` — `saleOf row now`, whose `sale_price_ton` and `rarity_tier`
are the row's stored price and stored tier (not recomputed from a fresh
observation); and every active row whose address is inbound is updated to
`last_seen_at = now` with the newly-observed price. -/
theorem sync_reconciliation_step (db : DB) (inb : List NFTObservation) (now : ℤ)
    (hnd : (db.listings.map (·.nft_address)).Nodup) :
    (∀ row ∈ db.listings, row.sold_at = none →
      row.nft_address ∉ inboundAddrs inb →
      row.nft_address ∉ alreadySold db.sales now →
      0 < row.price_ton →
      markSold row now ∈ (syncAllListings db inb now).1.listings ∧
        ((syncAllListings db inb now).1.sales.filter
            (fun s => s.nft_address == row.nft_address)) =
          db.sales.filter (fun s => s.nft_address == row.nft_address)
            ++ [saleOf row now]) ∧
    (∀ row ∈ db.listings, row.sold_at = none →
      ∀ l, inboundLast inb row.nft_address = some l →
        updateSeen row l now ∈ (syncAllListings db inb now).1.listings) := by
  constructor
  · intro row hrow hs hni hnsold hp
    have hsells : sellsNow inb (alreadySold db.sales now) row := ⟨hs, hni, hnsold, hp⟩
    constructor
    · show markSold row now ∈ _ ++ syncInserts db inb now
      apply List.mem_append_left
      have heq : (syncRow inb (alreadySold db.sales now) now row).1 = markSold row now := by
        rw [syncRow_sells hsells]
      exact heq ▸ List.mem_map_of_mem _ hrow
    · show ((db.sales ++ syncNewSales db inb now).filter _) = _
      rw [List.filter_append]
      congr 1
      unfold syncNewSales
      exact flatMap_sales_filter_eq inb _ now db.listings hnd row hrow hsells
  · intro row hrow hs l hl
    show updateSeen row l now ∈ _ ++ syncInserts db inb now
    apply List.mem_append_left
    have heq : (syncRow inb (alreadySold db.sales now) now row).1 = updateSeen row l now := by
      rw [syncRow_update hs hl]
    exact heq ▸ List.mem_map_of_mem _ hrow

/-- A concrete active row that disappears from the inbound set. -/
def rowA : GiftListing :=
  { nft_address := "a", gift_slug := "plushpepe", serial_number := some 7
    rarity_tier := "ultra_rare", price_ton := 5, marketplace := "Fragment"
    first_seen_at := 0, last_seen_at := 10, sold_at := none }

/-- A concrete active row that stays in the inbound set. -/
def rowB : GiftListing :=
  { nft_address := "b", gift_slug := "plushpepe", serial_number := some 2000
    rarity_tier := "uncommon", price_ton := 8, marketplace := "Fragment"
    first_seen_at := 0, last_seen_at := 10, sold_at := none }

/-- The fresh observation of `rowB` at a new price. -/
def obsB : NFTObservation :=
  { nft_address := "b", gift_slug := "plushpepe", serial_number := some 2000
    price_ton := 9, marketplace := "Fragment", attributes := none }

/-- C1 witness: both conjuncts applied at a concrete two-row database. -/
theorem sync_reconciliation_step_witness :
    markSold rowA 100 ∈ (syncAllListings (DB.mk [rowA, rowB] []) [obsB] 100).1.listings ∧
      updateSeen rowB obsB 100 ∈
        (syncAllListings (DB.mk [rowA, rowB] []) [obsB] 100).1.listings := by
  have h := sync_reconciliation_step (DB.mk [rowA, rowB] []) [obsB] 100 (by decide)
  exact ⟨(h.1 rowA (by decide) (by decide) (by decide) (by decide) (by decide)).1,
    h.2 rowB (by decide) (by decide) obsB (by decide)⟩

end GiftScan

namespace GiftScan

theorem mem_alreadySold_iff {sales : List GiftSale} {now : ℤ} {a : String} :
    a ∈ alreadySold sales now ↔
      ∃ s ∈ sales, hourCutoff now ≤ s.detected_at ∧ s.nft_address = a := by
  unfold alreadySold
  constructor
  · intro h
    rcases List.mem_map.mp h with ⟨s, hs, rfl⟩
    rcases List.mem_filter.mp hs with ⟨hmem, hcond⟩
    exact ⟨s, hmem, by simpa using hcond, rfl⟩
  · rintro ⟨s, hmem, hcond, rfl⟩
    exact List.mem_map_of_mem _ (List.mem_filter.mpr ⟨hmem, by simpa using hcond⟩)

theorem syncRow_snd_nil_of_inbound {inb : List NFTObservation} {sold : List String}
    {now : ℤ} {row : GiftListing} (hmem : row.nft_address ∈ inboundAddrs inb) :
    (syncRow inb sold now row).2 = [] :=
  (syncRow_not_sells (fun h => h.2.1 hmem)).2

theorem syncRow_snd_nil_of_sold_at {inb : List NFTObservation} {sold : List String}
    {now : ℤ} {row : GiftListing} (h : row.sold_at ≠ none) :
    (syncRow inb sold now row).2 = [] :=
  (syncRow_not_sells (fun hc => h hc.1)).2

/-- C6, counterexample: an active row whose only prior sale sits exactly
one hour before the first run ages out of the one-hour window between two
runs one second apart, so the second run — same (empty) inbound set —
records one additional sale, not zero. -/
def rowC6 : GiftListing :=
  { nft_address := "a", gift_slug := "plushpepe", serial_number := some 7
    rarity_tier := "ultra_rare", price_ton := 5, marketplace := "Fragment"
    first_seen_at := 1000, last_seen_at := 2000, sold_at := none }

/-- The prior sale of `rowC6`'s address, recorded at time `0`
(exactly `hourCutoff 3600`). -/
def saleC6 : GiftSale :=
  { gift_slug := "plushpepe", nft_address := "a", serial_number := some 7
    rarity_tier := "ultra_rare", sale_price_ton := 4, marketplace := "Fragment"
    detected_at := 0 }

/-- C6, counterexample: re-running `sync_all_listings` on the same
inbound set `[]` one second later (runs at `3600` and `3601`, well within
one hour of each other) records `1` additional sale, because `saleC6`
left the one-hour `already_sold` window between the runs. -/
theorem sync_rerun_counterexample :
    (syncAllListings (DB.mk [rowC6] [saleC6]) [] 3600).2 = 0 ∧
      (syncAllListings ((syncAllListings (DB.mk [rowC6] [saleC6]) [] 3600).1) [] 3601).2 = 1 := by
  constructor <;> decide

/-- C6 (amended): re-running `sync_all_listings` with the same inbound
set within one hour records zero additional sales, **provided** no prior
sale ages out of the one-hour `already_sold` window between the two runs
(`hage`); moreover — unconditionally — every sale a run appends is more
than one hour younger than every earlier sale of the same address, so at
most one sale per address exists within any one-hour window. -/
theorem sync_rerun_no_new_sales (db : DB) (inb : List NFTObservation) (now₁ now₂ : ℤ)
    (h12 : now₁ ≤ now₂) (hhour : now₂ - now₁ ≤ 3600)
    (hage : ∀ s ∈ db.sales, hourCutoff now₁ ≤ s.detected_at →
      hourCutoff now₂ ≤ s.detected_at) :
    (syncAllListings (syncAllListings db inb now₁).1 inb now₂).2 = 0 ∧
      (∀ s ∈ syncNewSales db inb now₁, s.detected_at = now₁ ∧
        ∀ s' ∈ db.sales, s'.nft_address = s.nft_address →
          s'.detected_at < hourCutoff now₁) := by
  constructor
  · show (syncNewSales (syncAllListings db inb now₁).1 inb now₂).length = 0
    rw [List.length_eq_zero]
    unfold syncNewSales
    rw [List.flatMap_eq_nil_iff]
    intro r hr
    rcases List.mem_append.mp hr with hr | hr
    · -- a stored row processed by the first run
      rcases List.mem_map.mp hr with ⟨r₀, hr₀, rfl⟩
      by_cases hsells : sellsNow inb (alreadySold db.sales now₁) r₀
      · rw [syncRow_sells hsells]
        exact syncRow_snd_nil_of_sold_at (by simp [markSold])
      · have hfst := (@syncRow_not_sells inb (alreadySold db.sales now₁) now₁ r₀ hsells).1
        set r₁ := (syncRow inb (alreadySold db.sales now₁) now₁ r₀).1 with hr₁
        have haddr : r₁.nft_address = r₀.nft_address := syncRow_addr _ _ _ _
        cases hsa : r₀.sold_at with
        | some t => exact syncRow_snd_nil_of_sold_at (by rw [hfst, hsa]; simp)
        | none =>
          by_cases hmem : r₀.nft_address ∈ inboundAddrs inb
          · exact syncRow_snd_nil_of_inbound (haddr ▸ hmem)
          · by_cases hsold : r₀.nft_address ∈ alreadySold db.sales now₁
            · have hskip : syncRow inb (alreadySold db.sales now₁) now₁ r₀ = (r₀, []) :=
                syncRow_skip hsa hmem (Or.inl hsold)
              have hrr : r₁ = r₀ := by rw [hr₁, hskip]
              have hsold₂ : r₀.nft_address ∈
                  alreadySold (syncAllListings db inb now₁).1.sales now₂ := by
                rcases mem_alreadySold_iff.mp hsold with ⟨s, hsmem, hscond, hsaddr⟩
                refine mem_alreadySold_iff.mpr ⟨s, ?_, hage s hsmem hscond, hsaddr⟩
                show s ∈ db.sales ++ syncNewSales db inb now₁
                exact List.mem_append_left _ hsmem
              rw [hrr]
              exact (syncRow_not_sells (fun hc => hc.2.2.1 hsold₂)).2
            · have hp : ¬ 0 < r₀.price_ton := by
                intro hp
                exact hsells ⟨hsa, hmem, hsold, hp⟩
              have hskip : syncRow inb (alreadySold db.sales now₁) now₁ r₀ = (r₀, []) :=
                syncRow_skip hsa hmem (Or.inr hp)
              have hrr : r₁ = r₀ := by rw [hr₁, hskip]
              rw [hrr]
              exact (syncRow_not_sells (fun hc => hp hc.2.2.2)).2
    · -- a row inserted by the first run is inbound by construction
      exact syncRow_snd_nil_of_inbound (mem_syncInserts_inbound r hr)
  · intro s hs
    unfold syncNewSales at hs
    rcases List.mem_flatMap.mp hs with ⟨r, hr, hsr⟩
    by_cases hsells : sellsNow inb (alreadySold db.sales now₁) r
    · rw [syncRow_sells hsells] at hsr
      rcases List.mem_singleton.mp hsr with rfl
      refine ⟨rfl, ?_⟩
      intro s' hs' haddr
      by_contra hlt
      push_neg at hlt
      exact hsells.2.2.1 (mem_alreadySold_iff.mpr ⟨s', hs', hlt, haddr⟩)
    · rw [(syncRow_not_sells hsells).2] at hsr
      exact absurd hsr (List.not_mem_nil s)

/-- C6 witness: the amended theorem applied to a database whose only
sale is old enough (`detected_at = -5000 < hourCutoff 3600`) that the
aging hypothesis holds; the re-run one second later adds zero sales. -/
theorem sync_rerun_no_new_sales_witness :
    (syncAllListings
        (syncAllListings (DB.mk [rowC6] [{ saleC6 with detected_at := -5000 }]) [] 3600).1
        [] 3601).2 = 0 :=
  (sync_rerun_no_new_sales (DB.mk [rowC6] [{ saleC6 with detected_at := -5000 }]) [] 3600 3601
    (by norm_num) (by norm_num) (by decide)).1

end GiftScan

namespace GiftScan

/-- C10: within one `sync_all_listings` call, `sold_at` is set on an
active row exactly when a sale for its address is appended in that call
(first conjunct, an iff); consequently an active row absent from the
inbound set whose stored price is non-positive, or whose address already
has a sale within the past hour, is carried over **unchanged** — still
`sold_at = NULL`, hence still in the active set — and contributes no
sale (second conjunct). -/
theorem sync_sold_iff_sale_appended (db : DB) (inb : List NFTObservation) (now : ℤ)
    (hnd : (db.listings.map (·.nft_address)).Nodup) :
    (∀ row ∈ db.listings, row.sold_at = none →
      (markSold row now ∈ (syncAllListings db inb now).1.listings ↔
        (syncNewSales db inb now).filter (fun s => s.nft_address == row.nft_address) ≠ [])) ∧
    (∀ row ∈ db.listings, row.sold_at = none →
      row.nft_address ∉ inboundAddrs inb →
      (row.price_ton ≤ 0 ∨ row.nft_address ∈ alreadySold db.sales now) →
      row ∈ (syncAllListings db inb now).1.listings ∧
        (syncNewSales db inb now).filter (fun s => s.nft_address == row.nft_address) = []) := by
  have hsales : ∀ row ∈ db.listings, sellsNow inb (alreadySold db.sales now) row →
      (syncNewSales db inb now).filter (fun s => s.nft_address == row.nft_address) =
        [saleOf row now] := by
    intro row hrow hsells
    unfold syncNewSales
    exact flatMap_sales_filter_eq inb _ now db.listings hnd row hrow hsells
  have hnil : ∀ row ∈ db.listings, ¬ sellsNow inb (alreadySold db.sales now) row →
      (syncNewSales db inb now).filter (fun s => s.nft_address == row.nft_address) = [] := by
    intro row hrow hno
    unfold syncNewSales
    exact flatMap_sales_filter_nil inb _ now db.listings hnd row hrow hno
  constructor
  · intro row hrow hs
    constructor
    · intro hmem
      by_contra hne
      by_cases hsells : sellsNow inb (alreadySold db.sales now) row
      · rw [hsales row hrow hsells] at hne
        simp at hne
      · -- markSold cannot be in the output if the row does not sell
        rcases List.mem_append.mp hmem with hmem | hmem
        · rcases List.mem_map.mp hmem with ⟨r, hr, heq⟩
          have haddr : r.nft_address = row.nft_address := by
            have := syncRow_addr inb (alreadySold db.sales now) now r
            rw [heq] at this
            simpa [markSold] using this.symm
          have hreq : r = row :=
            List.inj_on_of_nodup_map hnd hr hrow haddr
          subst hreq
          by_cases hsells' : sellsNow inb (alreadySold db.sales now) r
          · exact hsells hsells'
          · have := (@syncRow_not_sells inb (alreadySold db.sales now) now r hsells').1
            rw [heq] at this
            simp only [markSold] at this
            rw [hs] at this
            simp at this
        · have := mem_syncInserts_sold_at_none _ hmem
          simp [markSold] at this
    · intro hne
      by_cases hsells : sellsNow inb (alreadySold db.sales now) row
      · show markSold row now ∈ _ ++ syncInserts db inb now
        apply List.mem_append_left
        have heq : (syncRow inb (alreadySold db.sales now) now row).1 = markSold row now := by
          rw [syncRow_sells hsells]
        exact heq ▸ List.mem_map_of_mem _ hrow
      · exact absurd (hnil row hrow hsells) hne
  · intro row hrow hs hni hskip
    have hno : ¬ sellsNow inb (alreadySold db.sales now) row := by
      rintro ⟨-, -, hnsold, hp⟩
      rcases hskip with h | h
      · exact absurd hp (not_lt.mpr h)
      · exact hnsold h
    have hskip' : syncRow inb (alreadySold db.sales now) now row = (row, []) := by
      apply syncRow_skip hs hni
      rcases hskip with h | h
      · exact Or.inr (not_lt.mpr h)
      · exact Or.inl h
    constructor
    · show row ∈ _ ++ syncInserts db inb now
      apply List.mem_append_left
      have heq : (syncRow inb (alreadySold db.sales now) now row).1 = row := by
        rw [hskip']
      exact heq ▸ List.mem_map_of_mem _ hrow
    · exact hnil row hrow hno

/-- A concrete active row with a non-positive stored price. -/
def rowZeroPrice : GiftListing :=
  { nft_address := "z", gift_slug := "plushpepe", serial_number := some 12
    rarity_tier := "ultra_rare", price_ton := 0, marketplace := "Fragment"
    first_seen_at := 0, last_seen_at := 10, sold_at := none }

/-- C10 witness: at a concrete database, `rowA` disappears and is marked
sold with a matching appended sale, while the zero-price row `rowZeroPrice`
also disappears yet is carried over unchanged with no sale. -/
theorem sync_sold_iff_sale_appended_witness :
    (markSold rowA 100 ∈ (syncAllListings (DB.mk [rowA, rowZeroPrice] []) [] 100).1.listings ↔
      (syncNewSales (DB.mk [rowA, rowZeroPrice] []) [] 100).filter
        (fun s => s.nft_address == rowA.nft_address) ≠ []) ∧
    (rowZeroPrice ∈ (syncAllListings (DB.mk [rowA, rowZeroPrice] []) [] 100).1.listings ∧
      (syncNewSales (DB.mk [rowA, rowZeroPrice] []) [] 100).filter
        (fun s => s.nft_address == rowZeroPrice.nft_address) = []) := by
  have h := sync_sold_iff_sale_appended (DB.mk [rowA, rowZeroPrice] []) [] 100 (by decide)
  exact ⟨h.1 rowA (by decide) (by decide),
    h.2 rowZeroPrice (by decide) (by decide) (by decide) (Or.inl (by decide))⟩

end GiftScan

namespace GiftScan

/-! ### Opportunity detection — `GiftScanner._check_arbitrage_opportunities`

Per-(slug, tier) classification.  A group is the list of latest
snapshots `(source, price_amount, serial_number, attributes)`; the source
sorts it by price with Python's stable sort and takes `sorted_prices[0]`
(the first minimal entry) as the buy side and `sorted_prices[-1]` (the
last maximal entry) as the sell candidate. -/

/-- One `(source, price_amount, serial_number, attributes)` tuple of a
(slug, tier) group. -/
structure GroupEntry where
  source : String
  price : ℚ
  serial : Option ℕ
  attributes : Option (List (String × String))
deriving DecidableEq, Repr

/-- The two fields of `FairValue` that `_check_arbitrage_opportunities`
branches on (`median_price`, `confidence`); the remaining fields only
feed logging and the alert payload. -/
structure FairValueEstimate where
  median_price : ℚ
  confidence : ℚ
deriving DecidableEq, Repr

/-- One call to `arbitrage_notifier.collect_opportunity`. -/
structure Emission where
  alert_type : String
  buy_source : String
  buy_price : ℚ
  sell_source : String
  sell_price : ℚ
  spread_ton : ℚ
deriving DecidableEq, Repr

/-- `sorted(prices, key=price)[0]` under a stable sort: the first entry
carrying the minimal price. -/
def firstMinBy (l : List GroupEntry) : Option GroupEntry :=
  l.foldl (fun acc x => match acc with
    | none => some x
    | some y => if x.price < y.price then some x else some y) none

/-- `sorted(prices, key=price)[-1]` under a stable sort: the last entry
carrying the maximal price. -/
def lastMaxBy (l : List GroupEntry) : Option GroupEntry :=
  l.foldl (fun acc x => match acc with
    | none => some x
    | some y => if y.price ≤ x.price then some x else some y) none

/-- Path B of the source (cold start, no trusted sales history). -/
def coldStart (prices : List GroupEntry) (buy sellCand : GroupEntry)
    (minSpread : ℚ) : List Emission :=
  if prices.length < 2 then []
  else if sellCand.source = buy.source then []
  else if sellCand.price / buy.price > 2 then []
  else if sellCand.price - buy.price ≥ minSpread then
    [{ alert_type := "arbitrage_unconfirmed", buy_source := buy.source
       buy_price := buy.price, sell_source := sellCand.source
       sell_price := sellCand.price, spread_ton := sellCand.price - buy.price }]
  else []

/-- Embedding of the per-group body of
`GiftScanner._check_arbitrage_opportunities`: the emissions collected for
one (slug, tier) group, given its fair value and the notifier's
`min_spread_ton`.  `MIN_CONFIDENCE_FOR_FAIR_VALUE = 0.2`,
`Decimal("0.7")`, `Decimal("1.1")` and `SUSPICIOUS_PRICE_MULTIPLIER =
Decimal("2.0")` are the exact rationals `2/10`, `7/10`, `11/10`, `2`. -/
def checkGroup (prices : List GroupEntry) (fairValue : Option FairValueEstimate)
    (minSpread : ℚ) : List Emission :=
  match firstMinBy prices, lastMaxBy prices with
  | some buy, some sellCand =>
    if buy.price ≤ 0 then []
    else
      match fairValue with
      | some fv =>
        if 2/10 ≤ fv.confidence then
          if buy.price ≤ fv.median_price * (7/10) then
            if fv.median_price - buy.price ≥ minSpread then
              [{ alert_type := "undervalued", buy_source := buy.source
                 buy_price := buy.price, sell_source := "market (avg)"
                 sell_price := fv.median_price
                 spread_ton := fv.median_price - buy.price }]
            else []
          else if 2 ≤ prices.length then
            if sellCand.source = buy.source then []
            else
              if min sellCand.price (fv.median_price * (11/10)) - buy.price ≥ minSpread then
                [{ alert_type := "arbitrage", buy_source := buy.source
                   buy_price := buy.price, sell_source := sellCand.source
                   sell_price := min sellCand.price (fv.median_price * (11/10))
                   spread_ton := min sellCand.price (fv.median_price * (11/10)) - buy.price }]
              else []
          else []
        else coldStart prices buy sellCand minSpread
      | none => coldStart prices buy sellCand minSpread
  | _, _ => []

theorem foldl_some_isSome {α : Type} (step : Option α → α → Option α)
    (hstep : ∀ y x, (step (some y) x).isSome) :
    ∀ (l : List α) (y : α), (l.foldl step (some y)).isSome := by
  intro l
  induction l with
  | nil => intro y; rfl
  | cons x xs ih =>
    intro y
    rcases Option.isSome_iff_exists.mp (hstep y x) with ⟨z, hz⟩
    rw [List.foldl_cons, hz]
    exact ih z

theorem lastMaxBy_isSome_of_firstMinBy {l : List GroupEntry} {b : GroupEntry}
    (h : firstMinBy l = some b) : ∃ s, lastMaxBy l = some s := by
  cases l with
  | nil => exact absurd h (by simp [firstMinBy])
  | cons x xs =>
    apply Option.isSome_iff_exists.mp
    show (List.foldl _ (some x) xs).isSome
    apply foldl_some_isSome
    intro y z
    by_cases hc : y.price ≤ z.price <;> simp [hc]

/-- C4, counterexample: a single-source group priced at `3.5` with fair
value median `5` and full confidence satisfies every condition of the
claim (`3.5 ≤ 0.7 × 5`), yet with `min_spread_ton = 3` the spread
`5 − 3.5 = 1.5` is below the gate and the source emits nothing. -/
theorem undervalued_needs_min_spread_counterexample :
    checkGroup [{ source := "GetGems", price := 7/2, serial := none, attributes := none }]
        (some { median_price := 5, confidence := 1 }) 3 = [] ∧
      (7 : ℚ)/2 ≤ 5 * (7/10) ∧ (2 : ℚ)/10 ≤ 1 ∧ (0 : ℚ) < 7/2 := by
  refine ⟨?_, by norm_num, by norm_num, by norm_num⟩
  norm_num [checkGroup, firstMinBy, lastMaxBy]

/-- C4 (amended): when the cheapest entry has positive price, fair value
exists with confidence ≥ 0.2 and `buy.price ≤ 0.7 × median_sale`, the
detector emits the `undervalued` opportunity — with sell_source
`"market (avg)"` and sell_price the median sale price — **iff** the
spread `median_sale − buy.price` also reaches `min_spread_ton`;
otherwise it emits nothing for the group. -/
theorem undervalued_emission (prices : List GroupEntry) (fv : FairValueEstimate)
    (minSpread : ℚ) (buy : GroupEntry)
    (hbuy : firstMinBy prices = some buy)
    (hpos : 0 < buy.price)
    (hconf : 2/10 ≤ fv.confidence)
    (hunder : buy.price ≤ fv.median_price * (7/10)) :
    checkGroup prices (some fv) minSpread =
      if fv.median_price - buy.price ≥ minSpread then
        [{ alert_type := "undervalued", buy_source := buy.source
           buy_price := buy.price, sell_source := "market (avg)"
           sell_price := fv.median_price
           spread_ton := fv.median_price - buy.price }]
      else [] := by
  rcases lastMaxBy_isSome_of_firstMinBy hbuy with ⟨sellCand, hsell⟩
  unfold checkGroup
  rw [hbuy, hsell]
  dsimp only
  rw [if_neg (not_le.mpr hpos), if_pos hconf, if_pos hunder]

/-- The undervalued end-to-end scenario of spec §8: A=65, B=110,
median 100. -/
def entryA : GroupEntry :=
  { source := "GetGems", price := 65, serial := some 12000, attributes := none }

/-- The second snapshot of the scenario. -/
def entryB : GroupEntry :=
  { source := "Fragment", price := 110, serial := some 12001, attributes := none }

/-- Fair value for the scenario: median 100, confidence 0.7. -/
def fvW : FairValueEstimate := { median_price := 100, confidence := 7/10 }

/-- C4 witness: the amended theorem applied to the §8 scenario
(`65 ≤ 0.7 × 100`, spread `35 ≥ 3`), emitting the undervalued alert. -/
theorem undervalued_emission_witness :
    checkGroup [entryA, entryB] (some fvW) 3 =
      if fvW.median_price - entryA.price ≥ (3 : ℚ) then
        [{ alert_type := "undervalued", buy_source := entryA.source
           buy_price := entryA.price, sell_source := "market (avg)"
           sell_price := fvW.median_price
           spread_ton := fvW.median_price - entryA.price }]
      else [] :=
  undervalued_emission [entryA, entryB] fvW 3 entryA (by decide) (by norm_num [entryA])
    (by norm_num [fvW]) (by norm_num [entryA, fvW])

end GiftScan

namespace GiftScan

/-! ### Rare-at-floor detector — `RareFloorDetector.check_and_alert`

The detector's in-memory dedup map `self._alerted : {nft_address →
last-alert time}` is an association list consed at the front; the
listings and sales tables are the lists of §`sync_all_listings`. -/

/-- `statistics.median` over rationals: sort ascending, take the middle
element (odd length) or the mean of the two middle elements (even
length).  The source never calls it on an empty list. -/
def medianQ (l : List ℚ) : ℚ :=
  let s := l.mergeSort (fun a b => decide (a ≤ b))
  if l.length % 2 = 1 then s.getD (l.length / 2) 0
  else (s.getD (l.length / 2 - 1) 0 + s.getD (l.length / 2) 0) / 2

/-- Step 1 of the source: the cheapest active common-tier listing of a
collection (`min(price_ton) … where sold_at is null and rarity_tier =
'common' group by gift_slug`). -/
def commonFloor (listings : List GiftListing) (slug : String) : Option ℚ :=
  match (listings.filter (fun r => r.sold_at.isNone && r.rarity_tier == "common"
      && r.gift_slug == slug)).map (·.price_ton) with
  | [] => none
  | p :: ps => some (ps.foldl min p)

/-- Step 2 of the source: 30-day sale prices for a (slug, tier) pair,
restricted to the `ultra_rare`/`rare` tiers exactly as the SQL filter is. -/
def salePricesFor (sales : List GiftSale) (now : ℤ) (slug tier : String) : List ℚ :=
  (sales.filter (fun s => (now - 30 * 86400 ≤ s.detected_at : Bool)
      && (s.rarity_tier == "ultra_rare" || s.rarity_tier == "rare")
      && s.gift_slug == slug && s.rarity_tier == tier)).map (·.sale_price_ton)

/-- `median_sale.get((slug, tier))`: sale count and median price, absent
when the pair has no qualifying sales. -/
def medianSaleInfo (sales : List GiftSale) (now : ℤ) (slug tier : String) : Option (ℕ × ℚ) :=
  match salePricesFor sales now slug tier with
  | [] => none
  | ps => some (ps.length, medianQ ps)

/-- `DEFAULT_PREMIUM`; the detector only reads it for the `ultra_rare`
and `rare` tiers. -/
def defaultPremium (tier : String) : ℚ :=
  if tier == "ultra_rare" then 5
  else if tier == "rare" then 5/2
  else if tier == "uncommon" then 13/10
  else 1

/-- The expected price: the 30-day median when backed by at least
`MIN_SALES_FOR_CONFIDENCE = 3` sales, else `common_floor ×
DEFAULT_PREMIUM[tier]`. -/
def expectedPrice (sales : List GiftSale) (now : ℤ) (slug tier : String) (cf : ℚ) : ℚ :=
  match medianSaleInfo sales now slug tier with
  | some (cnt, med) => if 3 ≤ cnt then med else cf * defaultPremium tier
  | none => cf * defaultPremium tier

/-- The `sales_count` carried on the alert. -/
def salesCountOf (sales : List GiftSale) (now : ℤ) (slug tier : String) : ℕ :=
  match medianSaleInfo sales now slug tier with
  | some (cnt, _) => cnt
  | none => 0

/-- `self._alerted.get(addr)` compared against `DEDUP_HOURS * 3600`. -/
def recentlyAlerted (alerted : List (String × ℤ)) (addr : String) (now : ℤ) : Bool :=
  match alerted.lookup addr with
  | some last => decide (now - last < 4 * 3600)
  | none => false

/-- One fired `RareFloorAlert`. -/
structure RareFloorAlert where
  nft_address : String
  gift_slug : String
  serial_number : Option ℕ
  rarity_tier : String
  marketplace : String
  current_price : ℚ
  common_floor : ℚ
  expected_price : ℚ
  discount : ℚ
  sales_count : ℕ
deriving DecidableEq, Repr

/-- Step 4's loop body over one rare listing, threading the dedup map
and the collected alerts. -/
def processListing (listings : List GiftListing) (sales : List GiftSale) (now : ℤ)
    (st : List (String × ℤ) × List RareFloorAlert) (l : GiftListing) :
    List (String × ℤ) × List RareFloorAlert :=
  match commonFloor listings l.gift_slug with
  | none => st
  | some cf =>
    if cf ≤ 0 then st
    else
      let expected := expectedPrice sales now l.gift_slug l.rarity_tier cf
      if expected ≤ l.price_ton then st
      else if (expected - l.price_ton) / expected < 3/10 then st
      else if recentlyAlerted st.1 l.nft_address now then st
      else
        ((l.nft_address, now) :: st.1,
         st.2 ++ [{ nft_address := l.nft_address, gift_slug := l.gift_slug
                    serial_number := l.serial_number, rarity_tier := l.rarity_tier
                    marketplace := l.marketplace, current_price := l.price_ton
                    common_floor := cf, expected_price := expected
                    discount := (expected - l.price_ton) / expected
                    sales_count := salesCountOf sales now l.gift_slug l.rarity_tier }])

/-- The active `ultra_rare`/`rare` listings the loop iterates over. -/
def rareActive (listings : List GiftListing) : List GiftListing :=
  listings.filter (fun r => r.sold_at.isNone &&
    (r.rarity_tier == "ultra_rare" || r.rarity_tier == "rare"))

/-- Embedding of `RareFloorDetector.check_and_alert`: the updated dedup
map and the alerts fired this call, sorted by descending discount as the
source sorts before sending. -/
def checkAndAlert (listings : List GiftListing) (sales : List GiftSale)
    (alerted : List (String × ℤ)) (now : ℤ) :
    List (String × ℤ) × List RareFloorAlert :=
  if (listings.filter (fun r => r.sold_at.isNone && r.rarity_tier == "common")).isEmpty then
    (alerted, [])
  else
    let st := (rareActive listings).foldl (processListing listings sales now) (alerted, [])
    (st.1, st.2.mergeSort (fun a b => decide (b.discount ≤ a.discount)))

end GiftScan

namespace GiftScan

/-- The conditions under which the loop body fires an alert for a rare
listing, given the dedup map at that point. -/
def emits (listings : List GiftListing) (sales : List GiftSale)
    (alerted : List (String × ℤ)) (now : ℤ) (l : GiftListing) : Prop :=
  ∃ cf, commonFloor listings l.gift_slug = some cf ∧ 0 < cf ∧
    l.price_ton < expectedPrice sales now l.gift_slug l.rarity_tier cf ∧
    3/10 ≤ (expectedPrice sales now l.gift_slug l.rarity_tier cf - l.price_ton) /
      expectedPrice sales now l.gift_slug l.rarity_tier cf ∧
    recentlyAlerted alerted l.nft_address now = false

/-- The alert record the loop body appends for a listing. -/
def alertOf (listings : List GiftListing) (sales : List GiftSale) (now : ℤ)
    (l : GiftListing) (cf : ℚ) : RareFloorAlert :=
  { nft_address := l.nft_address, gift_slug := l.gift_slug
    serial_number := l.serial_number, rarity_tier := l.rarity_tier
    marketplace := l.marketplace, current_price := l.price_ton
    common_floor := cf
    expected_price := expectedPrice sales now l.gift_slug l.rarity_tier cf
    discount := (expectedPrice sales now l.gift_slug l.rarity_tier cf - l.price_ton) /
      expectedPrice sales now l.gift_slug l.rarity_tier cf
    sales_count := salesCountOf sales now l.gift_slug l.rarity_tier }

theorem processListing_emits {listings : List GiftListing} {sales : List GiftSale}
    {now : ℤ} {st : List (String × ℤ) × List RareFloorAlert} {l : GiftListing}
    (h : emits listings sales st.1 now l) :
    ∃ cf, commonFloor listings l.gift_slug = some cf ∧
      processListing listings sales now st l =
        ((l.nft_address, now) :: st.1, st.2 ++ [alertOf listings sales now l cf]) := by
  rcases h with ⟨cf, hcf, hpos, hlt, hdisc, hrec⟩
  refine ⟨cf, hcf, ?_⟩
  unfold processListing
  rw [hcf]
  dsimp only
  rw [if_neg (not_le.mpr hpos), if_neg (not_le.mpr hlt), if_neg (not_lt.mpr hdisc), hrec]
  simp [alertOf]

theorem processListing_not_emits {listings : List GiftListing} {sales : List GiftSale}
    {now : ℤ} {st : List (String × ℤ) × List RareFloorAlert} {l : GiftListing}
    (h : ¬ emits listings sales st.1 now l) :
    processListing listings sales now st l = st := by
  unfold processListing
  cases hcf : commonFloor listings l.gift_slug with
  | none => rfl
  | some cf =>
    dsimp only
    by_cases h1 : cf ≤ 0
    · simp [h1]
    · rw [if_neg h1]
      by_cases h2 : expectedPrice sales now l.gift_slug l.rarity_tier cf ≤ l.price_ton
      · simp [h2]
      · rw [if_neg h2]
        by_cases h3 : (expectedPrice sales now l.gift_slug l.rarity_tier cf - l.price_ton) /
            expectedPrice sales now l.gift_slug l.rarity_tier cf < 3/10
        · simp [h3]
        · rw [if_neg h3]
          by_cases h4 : recentlyAlerted st.1 l.nft_address now
          · simp [h4]
          · have h4' : recentlyAlerted st.1 l.nft_address now = false := by
              simpa using h4
            exact absurd ⟨cf, hcf, not_le.mp h1, not_le.mp h2, not_lt.mp h3, h4'⟩ h

theorem processListing_shape (listings : List GiftListing) (sales : List GiftSale)
    (now : ℤ) (st : List (String × ℤ) × List RareFloorAlert) (l : GiftListing) :
    processListing listings sales now st l = st ∨
      ∃ cf, processListing listings sales now st l =
        ((l.nft_address, now) :: st.1, st.2 ++ [alertOf listings sales now l cf]) := by
  by_cases h : emits listings sales st.1 now l
  · rcases processListing_emits h with ⟨cf, -, heq⟩
    exact Or.inr ⟨cf, heq⟩
  · exact Or.inl (processListing_not_emits h)

theorem alertOf_addr (listings : List GiftListing) (sales : List GiftSale) (now : ℤ)
    (l : GiftListing) (cf : ℚ) :
    (alertOf listings sales now l cf).nft_address = l.nft_address := rfl

theorem foldl_alerts_extend (listings : List GiftListing) (sales : List GiftSale)
    (now : ℤ) : ∀ (rs : List GiftListing) (st : List (String × ℤ) × List RareFloorAlert),
    ∃ suffix, (rs.foldl (processListing listings sales now) st).2 = st.2 ++ suffix ∧
      ∀ a ∈ suffix, a.nft_address ∈ rs.map (·.nft_address) := by
  intro rs
  induction rs with
  | nil => exact fun st => ⟨[], by simp⟩
  | cons r rs ih =>
    intro st
    rw [List.foldl_cons]
    rcases processListing_shape listings sales now st r with heq | ⟨cf, heq⟩
    · rw [heq]
      rcases ih st with ⟨suffix, hs, hmem⟩
      exact ⟨suffix, hs, fun a ha => by simp [hmem a ha]⟩
    · rw [heq]
      rcases ih ((r.nft_address, now) :: st.1, st.2 ++ [alertOf listings sales now r cf])
        with ⟨suffix, hs, hmem⟩
      refine ⟨[alertOf listings sales now r cf] ++ suffix, ?_, ?_⟩
      · rw [hs]
        simp
      · intro a ha
        rcases List.mem_append.mp ha with ha | ha
        · rcases List.mem_singleton.mp ha with rfl
          simp [alertOf_addr]
        · simp [hmem a ha]

theorem foldl_lookup_unchanged (listings : List GiftListing) (sales : List GiftSale)
    (now : ℤ) : ∀ (rs : List GiftListing) (st : List (String × ℤ) × List RareFloorAlert)
    (a : String), a ∉ rs.map (·.nft_address) →
    ((rs.foldl (processListing listings sales now) st).1).lookup a = st.1.lookup a := by
  intro rs
  induction rs with
  | nil => intro st a _; rfl
  | cons r rs ih =>
    intro st a ha
    simp only [List.map_cons, List.mem_cons, not_or] at ha
    obtain ⟨hra, hrs⟩ := ha
    rw [List.foldl_cons]
    rw [ih _ a hrs]
    rcases processListing_shape listings sales now st r with heq | ⟨cf, heq⟩
    · rw [heq]
    · rw [heq]
      show (((r.nft_address, now) :: st.1).lookup a) = st.1.lookup a
      have hne : (a == r.nft_address) = false := by
        simp only [beq_eq_false_iff_ne, ne_eq]
        exact hra
      simp only [List.lookup, hne]

theorem recentlyAlerted_congr {al₁ al₂ : List (String × ℤ)} {addr : String} {now : ℤ}
    (h : al₁.lookup addr = al₂.lookup addr) :
    recentlyAlerted al₁ addr now = recentlyAlerted al₂ addr now := by
  unfold recentlyAlerted
  rw [h]

theorem emits_congr {listings : List GiftListing} {sales : List GiftSale}
    {al₁ al₂ : List (String × ℤ)} {now : ℤ} {l : GiftListing}
    (h : al₁.lookup l.nft_address = al₂.lookup l.nft_address) :
    emits listings sales al₁ now l ↔ emits listings sales al₂ now l := by
  unfold emits
  rw [recentlyAlerted_congr h]

end GiftScan

namespace GiftScan

theorem fold_alert_iff (listings : List GiftListing) (sales : List GiftSale) (now : ℤ) :
    ∀ (rs : List GiftListing), (rs.map (·.nft_address)).Nodup →
    ∀ l ∈ rs, ∀ st : List (String × ℤ) × List RareFloorAlert,
      (∀ a ∈ st.2, a.nft_address ≠ l.nft_address) →
      ((∃ a ∈ (rs.foldl (processListing listings sales now) st).2,
          a.nft_address = l.nft_address) ↔ emits listings sales st.1 now l) := by
  intro rs
  induction rs with
  | nil => intro _ l hl; exact absurd hl (List.not_mem_nil l)
  | cons r rs ih =>
    intro hnd l hl st hst
    rw [List.map_cons, List.nodup_cons] at hnd
    obtain ⟨hhead, htail⟩ := hnd
    rw [List.foldl_cons]
    rcases List.mem_cons.mp hl with rfl | hmem
    · by_cases hem : emits listings sales st.1 now l
      · rcases processListing_emits hem with ⟨cf, -, heq⟩
        rw [heq]
        refine ⟨fun _ => hem, fun _ => ?_⟩
        rcases foldl_alerts_extend listings sales now rs
          ((l.nft_address, now) :: st.1, st.2 ++ [alertOf listings sales now l cf])
          with ⟨suffix, hs, -⟩
        refine ⟨alertOf listings sales now l cf, ?_, alertOf_addr listings sales now l cf⟩
        rw [hs]
        simp
      · rw [processListing_not_emits hem]
        constructor
        · rintro ⟨a, ha, haddr⟩
          rcases foldl_alerts_extend listings sales now rs st with ⟨suffix, hs, hmem'⟩
          rw [hs] at ha
          rcases List.mem_append.mp ha with ha | ha
          · exact absurd haddr (hst a ha)
          · have := hmem' a ha
            rw [haddr] at this
            exact absurd this hhead
        · intro hem'
          exact absurd hem' hem
    · have hraddr : r.nft_address ≠ l.nft_address := fun hc =>
        hhead (hc ▸ List.mem_map_of_mem (·.nft_address) hmem)
      rcases processListing_shape listings sales now st r with heq | ⟨cf, heq⟩
      · rw [heq]
        exact ih htail l hmem st hst
      · rw [heq]
        have hlook : ((r.nft_address, now) :: st.1).lookup l.nft_address =
            st.1.lookup l.nft_address := by
          have hne : (l.nft_address == r.nft_address) = false := by
            simp only [beq_eq_false_iff_ne, ne_eq]
            exact fun hc => hraddr hc.symm
          simp only [List.lookup, hne]
        have hst' : ∀ a ∈ st.2 ++ [alertOf listings sales now r cf],
            a.nft_address ≠ l.nft_address := by
          intro a ha
          rcases List.mem_append.mp ha with ha | ha
          · exact hst a ha
          · rcases List.mem_singleton.mp ha with rfl
            rw [alertOf_addr]
            exact hraddr
        rw [ih htail l hmem ((r.nft_address, now) :: st.1,
          st.2 ++ [alertOf listings sales now r cf]) hst']
        exact emits_congr hlook

theorem fold_lookup_after_emit (listings : List GiftListing) (sales : List GiftSale)
    (now : ℤ) : ∀ (rs : List GiftListing), (rs.map (·.nft_address)).Nodup →
    ∀ l ∈ rs, ∀ st : List (String × ℤ) × List RareFloorAlert,
      emits listings sales st.1 now l →
      ((rs.foldl (processListing listings sales now) st).1).lookup l.nft_address =
        some now := by
  intro rs
  induction rs with
  | nil => intro _ l hl; exact absurd hl (List.not_mem_nil l)
  | cons r rs ih =>
    intro hnd l hl st hem
    rw [List.map_cons, List.nodup_cons] at hnd
    obtain ⟨hhead, htail⟩ := hnd
    rw [List.foldl_cons]
    rcases List.mem_cons.mp hl with rfl | hmem
    · rcases processListing_emits hem with ⟨cf, -, heq⟩
      rw [heq]
      rw [foldl_lookup_unchanged listings sales now rs _ l.nft_address hhead]
      show ((l.nft_address, now) :: st.1).lookup l.nft_address = some now
      simp [List.lookup]
    · have hraddr : r.nft_address ≠ l.nft_address := fun hc =>
        hhead (hc ▸ List.mem_map_of_mem (·.nft_address) hmem)
      rcases processListing_shape listings sales now st r with heq | ⟨cf, heq⟩
      · rw [heq]
        exact ih htail l hmem st hem
      · rw [heq]
        apply ih htail l hmem
        have hlook : ((r.nft_address, now) :: st.1).lookup l.nft_address =
            st.1.lookup l.nft_address := by
          have hne : (l.nft_address == r.nft_address) = false := by
            simp only [beq_eq_false_iff_ne, ne_eq]
            exact fun hc => hraddr hc.symm
          simp only [List.lookup, hne]
        exact (emits_congr hlook).mpr hem

theorem commonFloor_guard {listings : List GiftListing} {slug : String} {cf : ℚ}
    (h : commonFloor listings slug = some cf) :
    (listings.filter (fun r => r.sold_at.isNone && r.rarity_tier == "common")).isEmpty
      = false := by
  cases hbe : (listings.filter
      (fun r => r.sold_at.isNone && r.rarity_tier == "common")).isEmpty
  · rfl
  · exfalso
    have hnil : listings.filter (fun r => r.sold_at.isNone && r.rarity_tier == "common")
        = [] := List.isEmpty_iff.mp hbe
    have hall := List.filter_eq_nil_iff.mp hnil
    have hsmall : listings.filter (fun r => r.sold_at.isNone && r.rarity_tier == "common"
        && r.gift_slug == slug) = [] := by
      rw [List.filter_eq_nil_iff]
      intro a ha hcond
      apply hall a ha
      simp only [Bool.and_eq_true] at hcond ⊢
      exact hcond.1
    unfold commonFloor at h
    rw [hsmall] at h
    simp at h

end GiftScan

namespace GiftScan

/-- C5: for an active rare/ultra_rare listing whose collection has a
positive common-tier floor `cf`, a `rare_at_floor` alert is fired **iff**
`expected > price` and `(expected − price)/expected ≥ 0.30` and the
address is not under the 4-hour dedup window, where `expected` is the
30-day (slug, tier) median when backed by ≥ 3 sales and
`cf × DEFAULT_PREMIUM[tier]` otherwise; and once fired, a second call
within 4 hours fires no alert for the same address. -/
theorem rare_at_floor_alert_iff (listings : List GiftListing) (sales : List GiftSale)
    (alerted : List (String × ℤ)) (now now₂ : ℤ) (l : GiftListing) (cf : ℚ)
    (hnd : ((rareActive listings).map (·.nft_address)).Nodup)
    (hl : l ∈ rareActive listings)
    (hcf : commonFloor listings l.gift_slug = some cf) (hcfpos : 0 < cf) :
    ((∃ a ∈ (checkAndAlert listings sales alerted now).2,
        a.nft_address = l.nft_address) ↔
      (l.price_ton < expectedPrice sales now l.gift_slug l.rarity_tier cf ∧
        3/10 ≤ (expectedPrice sales now l.gift_slug l.rarity_tier cf - l.price_ton) /
          expectedPrice sales now l.gift_slug l.rarity_tier cf ∧
        recentlyAlerted alerted l.nft_address now = false)) ∧
    (now₂ - now < 4 * 3600 →
      (∃ a ∈ (checkAndAlert listings sales alerted now).2,
        a.nft_address = l.nft_address) →
      ¬ (∃ a ∈ (checkAndAlert listings sales
          (checkAndAlert listings sales alerted now).1 now₂).2,
        a.nft_address = l.nft_address)) := by
  have hguard := commonFloor_guard hcf
  have hemits_iff : ∀ (al : List (String × ℤ)) (t : ℤ),
      emits listings sales al t l ↔
        (l.price_ton < expectedPrice sales t l.gift_slug l.rarity_tier cf ∧
          3/10 ≤ (expectedPrice sales t l.gift_slug l.rarity_tier cf - l.price_ton) /
            expectedPrice sales t l.gift_slug l.rarity_tier cf ∧
          recentlyAlerted al l.nft_address t = false) := by
    intro al t
    constructor
    · rintro ⟨cf', hcf', hpos', hlt', hdisc', hrec'⟩
      rw [hcf] at hcf'
      rcases Option.some_inj.mp hcf' with rfl
      exact ⟨hlt', hdisc', hrec'⟩
    · rintro ⟨hlt', hdisc', hrec'⟩
      exact ⟨cf, hcf, hcfpos, hlt', hdisc', hrec'⟩
  have hred2 : ∀ (al : List (String × ℤ)) (t : ℤ),
      (checkAndAlert listings sales al t).2 =
        ((rareActive listings).foldl (processListing listings sales t) (al, [])).2.mergeSort
          (fun a b => decide (b.discount ≤ a.discount)) := by
    intro al t
    unfold checkAndAlert
    rw [hguard]
    rfl
  have hred1 : ∀ (al : List (String × ℤ)) (t : ℤ),
      (checkAndAlert listings sales al t).1 =
        ((rareActive listings).foldl (processListing listings sales t) (al, [])).1 := by
    intro al t
    unfold checkAndAlert
    rw [hguard]
    rfl
  have hmem_iff : ∀ (al : List (String × ℤ)) (t : ℤ),
      (∃ a ∈ (checkAndAlert listings sales al t).2, a.nft_address = l.nft_address) ↔
        emits listings sales al t l := by
    intro al t
    rw [hred2 al t]
    constructor
    · rintro ⟨a, ha, haddr⟩
      rw [List.mem_mergeSort] at ha
      exact (fold_alert_iff listings sales t (rareActive listings) hnd l hl (al, [])
        (by intro a ha; exact absurd ha (List.not_mem_nil a))).mp ⟨a, ha, haddr⟩
    · intro hem
      rcases (fold_alert_iff listings sales t (rareActive listings) hnd l hl (al, [])
        (by intro a ha; exact absurd ha (List.not_mem_nil a))).mpr hem
        with ⟨a, ha, haddr⟩
      exact ⟨a, List.mem_mergeSort.mpr ha, haddr⟩
  constructor
  · rw [hmem_iff alerted now]
    exact hemits_iff alerted now
  · intro h4h hex hex₂
    have hem : emits listings sales alerted now l := (hmem_iff alerted now).mp hex
    have hmap : ((checkAndAlert listings sales alerted now).1).lookup l.nft_address =
        some now := by
      rw [hred1 alerted now]
      exact fold_lookup_after_emit listings sales now (rareActive listings) hnd l hl
        (alerted, []) hem
    have hem₂ := (hmem_iff _ now₂).mp hex₂
    rcases (hemits_iff _ now₂).mp hem₂ with ⟨-, -, hrec₂⟩
    rw [recentlyAlerted, hmap] at hrec₂
    simp only [decide_eq_false_iff_not, not_lt] at hrec₂
    omega

/-- The active common-tier listing of the C5 scenario (floor 100). -/
def rowCommonW : GiftListing :=
  { nft_address := "c", gift_slug := "plushpepe", serial_number := some 9000
    rarity_tier := "common", price_ton := 100, marketplace := "Fragment"
    first_seen_at := 0, last_seen_at := 0, sold_at := none }

/-- The active rare listing of the C5 scenario, priced at 120 against an
expected `100 × 2.5 = 250` (discount 52%). -/
def rowRareW : GiftListing :=
  { nft_address := "r", gift_slug := "plushpepe", serial_number := some 500
    rarity_tier := "rare", price_ton := 120, marketplace := "Fragment"
    first_seen_at := 0, last_seen_at := 0, sold_at := none }

/-- C5 witness: the scenario of spec §8 item 5 — no sales, common floor
100, rare listing at 120 — instantiating both conjuncts at concrete
inputs. -/
theorem rare_at_floor_alert_iff_witness :
    ((∃ a ∈ (checkAndAlert [rowCommonW, rowRareW] [] [] 0).2,
        a.nft_address = rowRareW.nft_address) ↔
      (rowRareW.price_ton < expectedPrice [] 0 rowRareW.gift_slug rowRareW.rarity_tier 100 ∧
        3/10 ≤ (expectedPrice [] 0 rowRareW.gift_slug rowRareW.rarity_tier 100
            - rowRareW.price_ton) /
          expectedPrice [] 0 rowRareW.gift_slug rowRareW.rarity_tier 100 ∧
        recentlyAlerted [] rowRareW.nft_address 0 = false)) ∧
    ((1000 : ℤ) - 0 < 4 * 3600 →
      (∃ a ∈ (checkAndAlert [rowCommonW, rowRareW] [] [] 0).2,
        a.nft_address = rowRareW.nft_address) →
      ¬ (∃ a ∈ (checkAndAlert [rowCommonW, rowRareW] []
          (checkAndAlert [rowCommonW, rowRareW] [] [] 0).1 1000).2,
        a.nft_address = rowRareW.nft_address)) :=
  rare_at_floor_alert_iff [rowCommonW, rowRareW] [] [] 0 1000 rowRareW 100
    (by decide) (by decide) (by decide) (by norm_num)

end GiftScan

namespace GiftScan

/-! ### Name normalization — `GiftMapper.normalize`

The five `re.sub(pattern, " ", s, flags=IGNORECASE)` passes are modelled
as left-to-right scanners over the character list: at each position the
anchored pattern is tried; on success the match is replaced by one space
and scanning resumes after it, otherwise the scanner advances one
character — exactly the semantics of non-overlapping leftmost `re.sub`.
The input is already lowercased when the passes run, so IGNORECASE is
inert.  Python's `\s` is the ASCII whitespace class here. -/

/-- Python `\s` (ASCII): space, tab, newline, carriage return, vertical
tab, form feed. -/
def isPySpace (c : Char) : Bool :=
  c = ' ' || c = '\t' || c = '\n' || c = '\r' || c = Char.ofNat 11 || c = Char.ofNat 12

/-- Greedy `\s*`. -/
def dropSpaces (s : List Char) : List Char := s.dropWhile isPySpace

/-- Anchored match of `\s*tok\s*` (for the literal noise tokens `nft`,
`gift`, `telegram`); returns the rest after the match.  The token is
non-empty so a successful match always consumes at least one character. -/
def matchTokenSpaced (tok : List Char) (s : List Char) : Option (List Char) :=
  let s1 := dropSpaces s
  if tok.isPrefixOf s1 then some (dropSpaces (s1.drop tok.length)) else none

/-- Anchored match of `#\d+`. -/
def matchHashNum (s : List Char) : Option (List Char) :=
  match s with
  | '#' :: rest =>
    if (rest.takeWhile Char.isDigit).isEmpty then none
    else some (rest.dropWhile Char.isDigit)
  | _ => none

/-- Anchored match of `\(\d+\)`. -/
def matchParenNum (s : List Char) : Option (List Char) :=
  match s with
  | '(' :: rest =>
    if (rest.takeWhile Char.isDigit).isEmpty then none
    else
      match rest.dropWhile Char.isDigit with
      | ')' :: rest2 => some rest2
      | _ => none
  | _ => none

/-- `re.sub(pattern, " ", s)` as a scanner; the fuel is the input length,
which suffices because every successful anchored match consumes at least
one character. -/
def subMatchFuel (m : List Char → Option (List Char)) : ℕ → List Char → List Char
  | 0, s => s
  | _ + 1, [] => []
  | fuel + 1, c :: cs =>
    match m (c :: cs) with
    | some rest => ' ' :: subMatchFuel m fuel rest
    | none => c :: subMatchFuel m fuel cs

/-- One full substitution pass. -/
def subMatch (m : List Char → Option (List Char)) (s : List Char) : List Char :=
  subMatchFuel m s.length s

/-- Python `str.strip()` (ASCII whitespace). -/
def pyStrip (s : List Char) : List Char :=
  ((s.dropWhile isPySpace).reverse.dropWhile isPySpace).reverse

/-- `GiftMapper.MANUAL_OVERRIDES`. -/
def MANUAL_OVERRIDES : List (String × String) :=
  [("bluestardeluxe", "bluestar"), ("redballoonnft", "redballoon"),
   ("greenclovernftgift", "greenclover")]

/-- Embedding of `GiftMapper.normalize(raw_name)`: lowercase and strip;
the five noise-pattern passes; drop characters outside `[a-z0-9\s]`;
delete all whitespace (`\s+` → empty); finally the manual override
lookup.  The `source` argument only feeds logging. -/
def normalize (raw_name : String) : String :=
  if raw_name = "" then ""
  else
    let s0 := pyStrip (raw_name.toList.map Char.toLower)
    let s1 := subMatch (matchTokenSpaced "nft".toList) s0
    let s2 := subMatch (matchTokenSpaced "gift".toList) s1
    let s3 := subMatch (matchTokenSpaced "telegram".toList) s2
    let s4 := subMatch matchHashNum s3
    let s5 := subMatch matchParenNum s4
    let s6 := s5.filter (fun c => c.isLower || c.isDigit || isPySpace c)
    let s7 := s6.filter (fun c => !isPySpace c)
    let slug := String.mk s7
    match MANUAL_OVERRIDES.lookup slug with
    | some canonical => canonical
    | none => slug

/-- C7: the override targets do normalize to themselves, but
normalization is **not** idempotent: collapsing whitespace can create a
noise token, so `normalize "n ft" = "nft"` while a second application
strips the token to the empty string. -/
theorem normalize_not_idempotent :
    (normalize "bluestar" = "bluestar" ∧ normalize "redballoon" = "redballoon" ∧
      normalize "greenclover" = "greenclover") ∧
    normalize "n ft" = "nft" ∧ normalize "nft" = "" ∧
      normalize (normalize "n ft") ≠ normalize "n ft" := by
  refine ⟨⟨?_, ?_, ?_⟩, ?_, ?_, ?_⟩ <;> decide

end GiftScan

namespace GiftScan

/-! ### Batch alerter — spec §4.I

The batch-variant alerter that `scanner.py` drives
(`arbitrage_notifier.collect_opportunity` / `send_scan_results`) is not
part of the source tree; only its caller is.  The definitions below are
therefore modelled from the spec's §4.I, not translated from source. -/

/-- Modelled from the spec: one opportunity handed to the alerter; the
dedup identity is (slug, buy_source, sell_source, buy_price, sell_price). -/
structure Deal where
  slug : String
  buy_source : String
  sell_source : String
  buy_price : ℚ
  sell_price : ℚ
  spread : ℚ
  alert_type : String
deriving DecidableEq, Repr

/-- The fired-map key `(slug, buy_source, sell_source)`. -/
def dealKey (d : Deal) : String × String × String :=
  (d.slug, d.buy_source, d.sell_source)

/-- Modelled from the spec: a batch item matches an existing keyed entry
when the stored `(buy, sell)` prices equal the item's prices. -/
def firedMatches (fired : List ((String × String × String) × (ℚ × ℚ))) (d : Deal) : Bool :=
  match fired.lookup (dealKey d) with
  | some (b, s) => b == d.buy_price && s == d.sell_price
  | none => false

/-- Modelled from the spec: step 1 — drop items matching an existing
keyed entry with the same prices; keep the rest as new. -/
def filterNew (fired : List ((String × String × String) × (ℚ × ℚ)))
    (batch : List Deal) : List Deal :=
  batch.filter (fun d => !firedMatches fired d)

/-- Modelled from the spec: step 2 — sort new deals, `undervalued`
first, then by descending spread. -/
def sortDeals (deals : List Deal) : List Deal :=
  deals.mergeSort (fun a b =>
    if a.alert_type == "undervalued" && !(b.alert_type == "undervalued") then true
    else if b.alert_type == "undervalued" && !(a.alert_type == "undervalued") then false
    else decide (b.spread ≤ a.spread))

/-- Modelled from the spec: step 4 — update the fired map with the new
entries after a successful delivery. -/
def fireEntries (fired : List ((String × String × String) × (ℚ × ℚ)))
    (deals : List Deal) : List ((String × String × String) × (ℚ × ℚ)) :=
  deals.foldl (fun m d => (dealKey d, (d.buy_price, d.sell_price)) :: m) fired

/-- Modelled from the spec: one alerter scan (§4.I) — filter the batch
against the fired map; if at least 3 deals are new, publish a single
summary (the sorted new deals) and update the fired map; below the
threshold only log locally, leaving the map untouched. -/
def processScan (fired : List ((String × String × String) × (ℚ × ℚ)))
    (batch : List Deal) :
    Option (List Deal) × List ((String × String × String) × (ℚ × ℚ)) :=
  let newDeals := filterNew fired batch
  if 3 ≤ newDeals.length then (some (sortDeals newDeals), fireEntries fired newDeals)
  else (none, fired)

/-- The §8 undervalued deal, used as the repeated opportunity. -/
def dealW : Deal :=
  { slug := "plushpepe", buy_source := "GetGems", sell_source := "market (avg)"
    buy_price := 65, sell_price := 100, spread := 35, alert_type := "undervalued" }

/-- C8, counterexample: presenting the same single opportunity twice
yields **zero** summary publications, not exactly one — a lone new deal
never reaches the `≥ 3 new deals` batch gate, so neither scan publishes
(and the fired map is never updated). -/
theorem alerter_single_deal_unpublished :
    (processScan [] [dealW]).1 = none ∧
      (processScan (processScan [] [dealW]).2 [dealW]).1 = none := by
  constructor <;> rfl

theorem fireEntries_lookup_unchanged
    (deals : List Deal) (k : String × String × String)
    (hk : ∀ d' ∈ deals, dealKey d' ≠ k) :
    ∀ m : List ((String × String × String) × (ℚ × ℚ)),
      (fireEntries m deals).lookup k = m.lookup k := by
  induction deals with
  | nil => intro m; rfl
  | cons x xs ih =>
    intro m
    show (fireEntries ((dealKey x, (x.buy_price, x.sell_price)) :: m) xs).lookup k
      = m.lookup k
    rw [ih (fun d' hd' => hk d' (List.mem_cons_of_mem x hd'))]
    have hne : (k == dealKey x) = false := by
      simp only [beq_eq_false_iff_ne, ne_eq]
      exact fun hc => hk x (List.mem_cons_self x xs) hc.symm
    simp only [List.lookup, hne]

theorem fireEntries_lookup (deals : List Deal) (d : Deal) (hd : d ∈ deals)
    (hkey : ∀ d' ∈ deals, dealKey d' = dealKey d → d' = d) :
    ∀ m : List ((String × String × String) × (ℚ × ℚ)),
      (fireEntries m deals).lookup (dealKey d) = some (d.buy_price, d.sell_price) := by
  induction deals with
  | nil => exact absurd hd (List.not_mem_nil d)
  | cons x xs ih =>
    intro m
    show (fireEntries ((dealKey x, (x.buy_price, x.sell_price)) :: m) xs).lookup (dealKey d)
      = some (d.buy_price, d.sell_price)
    by_cases hdx : d ∈ xs
    · exact ih hdx (fun d' hd' h' => hkey d' (List.mem_cons_of_mem x hd') h') _
    · have hdx' : d = x := by
        rcases List.mem_cons.mp hd with h | h
        · exact h
        · exact absurd h hdx
      subst hdx'
      have hxs : ∀ d' ∈ xs, dealKey d' ≠ dealKey d := by
        intro d' hd' hc
        have := hkey d' (List.mem_cons_of_mem d hd') hc
        exact hdx (this ▸ hd')
      rw [fireEntries_lookup_unchanged xs (dealKey d) hxs]
      simp [List.lookup]

/-- C8 (amended; the alerter itself is modelled from spec §4.I because
only its caller is in the tree): **when** the scan containing the first
presentation passes the `≥ 3 new deals` gate and is delivered, the
opportunity appears in that single summary, and a later presentation of
the same (slug, buy_source, sell_source, buy_price, sell_price) is
dropped by the filter as matching the now-fired keyed entry — it appears
in no later summary.  Below the gate no summary is published at all. -/
theorem alerter_dedup (fired : List ((String × String × String) × (ℚ × ℚ)))
    (batch₁ batch₂ : List Deal) (d : Deal)
    (hd : d ∈ filterNew fired batch₁)
    (hpub : 3 ≤ (filterNew fired batch₁).length)
    (hkey : ∀ d' ∈ filterNew fired batch₁, dealKey d' = dealKey d → d' = d) :
    (∃ summary, (processScan fired batch₁).1 = some summary ∧ d ∈ summary) ∧
      d ∉ filterNew (processScan fired batch₁).2 batch₂ ∧
      (∀ summary₂, (processScan (processScan fired batch₁).2 batch₂).1 = some summary₂ →
        d ∉ summary₂) := by
  have hps : processScan fired batch₁ =
      (some (sortDeals (filterNew fired batch₁)), fireEntries fired (filterNew fired batch₁)) := by
    unfold processScan
    rw [if_pos hpub]
  have hmatch : firedMatches (fireEntries fired (filterNew fired batch₁)) d = true := by
    unfold firedMatches
    rw [fireEntries_lookup (filterNew fired batch₁) d hd hkey fired]
    simp
  have hnotnew : d ∉ filterNew (fireEntries fired (filterNew fired batch₁)) batch₂ := by
    intro hc
    have := (List.mem_filter.mp hc).2
    rw [hmatch] at this
    simp at this
  refine ⟨⟨sortDeals (filterNew fired batch₁), by rw [hps], ?_⟩, ?_, ?_⟩
  · unfold sortDeals
    exact List.mem_mergeSort.mpr hd
  · rw [hps]
    exact hnotnew
  · intro summary₂ hsum₂ hmem₂
    rw [hps] at hsum₂
    unfold processScan at hsum₂
    by_cases hgate : 3 ≤ (filterNew (fireEntries fired (filterNew fired batch₁)) batch₂).length
    · rw [if_pos hgate] at hsum₂
      have hsum₂' : summary₂ =
          sortDeals (filterNew (fireEntries fired (filterNew fired batch₁)) batch₂) := by
        simpa using hsum₂.symm
      rw [hsum₂'] at hmem₂
      unfold sortDeals at hmem₂
      exact hnotnew (List.mem_mergeSort.mp hmem₂)
    · rw [if_neg hgate] at hsum₂
      simp at hsum₂

/-- A second distinct deal for the C8 witness batch. -/
def dealX : Deal :=
  { slug := "lootbag", buy_source := "Tonnel", sell_source := "Fragment"
    buy_price := 50, sell_price := 85, spread := 35, alert_type := "arbitrage_unconfirmed" }

/-- A third distinct deal for the C8 witness batch. -/
def dealY : Deal :=
  { slug := "snowman", buy_source := "MRKT", sell_source := "GetGems"
    buy_price := 20, sell_price := 40, spread := 20, alert_type := "arbitrage" }

/-- C8 witness: a first batch of three fresh deals is published; the
repeat of `dealW` in a second batch is filtered out and appears in no
second summary. -/
theorem alerter_dedup_witness :
    (∃ summary, (processScan [] [dealW, dealX, dealY]).1 = some summary ∧ dealW ∈ summary) ∧
      dealW ∉ filterNew (processScan [] [dealW, dealX, dealY]).2 [dealW] ∧
      (∀ summary₂, (processScan (processScan [] [dealW, dealX, dealY]).2 [dealW]).1
          = some summary₂ → dealW ∉ summary₂) :=
  alerter_dedup [] [dealW, dealX, dealY] [dealW] dealW (by decide) (by decide) (by decide)

end GiftScan

namespace GiftScan

/-! ### Rate limiter — `RateLimiterContext.__aenter__`

Small-step model of one task acquiring one named bucket.  The control
points mirror the source: entering `async with self.limiter._locks[key]`
(`start`), running the locked body (`critical`), `await asyncio.sleep`
inside the body (`sleeping`, the lock still held), and the recursive
`return await self.__aenter__()` which re-executes the function from the
top **while the lock is still held** — `asyncio.Lock` is not reentrant
and the only holder is the suspended task itself, so that second
acquisition can never be granted (`blocked` is absorbing). -/

inductive LimiterPC where
  | start
  | critical
  | sleeping
  | blocked
  | done
deriving DecidableEq, Repr

/-- `RateLimiter(max_requests, window_sec)`. -/
structure LimiterConfig where
  max_requests : ℕ
  window_sec : ℚ
deriving DecidableEq, Repr

/-- One task's view: control point, whether this task holds the bucket's
lock, the bucket's timestamp list, and the current time. -/
structure LimiterState where
  pc : LimiterPC
  lockHeld : Bool
  bucket : List ℚ
  time : ℚ
deriving DecidableEq, Repr

/-- `bucket[:] = [ts for ts in bucket if ts > cutoff]`. -/
def pruneBucket (bucket : List ℚ) (cutoff : ℚ) : List ℚ :=
  bucket.filter (fun ts => cutoff < ts)

/-- One deterministic step of the single-task model.  `start` with the
lock free acquires it; `start` with the lock already held (only possible
when this task holds it) blocks forever.  `critical` prunes, then either
sleeps until the oldest timestamp expires (lock kept, as in the source)
or appends `now` and returns, releasing the lock.  Waking from
`sleeping` re-enters the function from the top with the lock retained
(the source's `return await self.__aenter__()` runs before the
`async with` block is exited). -/
def limiterStep (cfg : LimiterConfig) (s : LimiterState) : LimiterState :=
  match s.pc with
  | .start =>
    if s.lockHeld then { s with pc := .blocked }
    else { s with pc := .critical, lockHeld := true }
  | .critical =>
    let cutoff := s.time - cfg.window_sec
    let bucket := pruneBucket s.bucket cutoff
    match bucket with
    | ts :: _ =>
      if cfg.max_requests ≤ bucket.length ∧ 0 < ts - cutoff then
        { s with pc := .sleeping, bucket := bucket }
      else { s with pc := .done, lockHeld := false, bucket := bucket ++ [s.time] }
    | [] => { s with pc := .done, lockHeld := false, bucket := bucket ++ [s.time] }
  | .sleeping =>
    match s.bucket with
    | ts :: _ => { s with pc := .start, time := ts + cfg.window_sec }
    | [] => { s with pc := .start }
  | .blocked => s
  | .done => s

/-- C9: an acquisition attempted while the bucket already holds
`max_requests` unexpired timestamps **never completes**: after acquiring
the lock, pruning, and sleeping, the retry re-enters `__aenter__` with
the non-reentrant lock still held by the same task, and the model is
stuck in `blocked` from step 3 on — it never reaches `done`, for any
number of steps. -/
theorem limiter_full_bucket_deadlocks (cfg : LimiterConfig) (b : List ℚ) (t : ℚ)
    (hN : 1 ≤ cfg.max_requests)
    (hfull : cfg.max_requests ≤ (pruneBucket b (t - cfg.window_sec)).length) :
    ∀ n : ℕ, ((limiterStep cfg)^[n] ⟨.start, false, b, t⟩).pc ≠ LimiterPC.done ∧
      (4 ≤ n → ((limiterStep cfg)^[n] ⟨.start, false, b, t⟩).pc = LimiterPC.blocked) := by
  obtain ⟨ts, tl, hb⟩ : ∃ ts tl, pruneBucket b (t - cfg.window_sec) = ts :: tl := by
    cases hp : pruneBucket b (t - cfg.window_sec) with
    | nil =>
      rw [hp] at hfull
      simp at hfull
      exact absurd hfull (by omega)
    | cons ts tl => exact ⟨ts, tl, rfl⟩
  have hts : t - cfg.window_sec < ts := by
    have hmem : ts ∈ pruneBucket b (t - cfg.window_sec) := by rw [hb]; simp
    have := List.mem_filter.mp hmem
    simpa using this.2
  have h1 : limiterStep cfg ⟨.start, false, b, t⟩ = ⟨.critical, true, b, t⟩ := by
    simp [limiterStep]
  have hcond : cfg.max_requests ≤ (ts :: tl).length ∧ 0 < ts - (t - cfg.window_sec) := by
    constructor
    · rw [← hb]; exact hfull
    · linarith
  have h2 : limiterStep cfg ⟨.critical, true, b, t⟩ =
      ⟨.sleeping, true, ts :: tl, t⟩ := by
    unfold limiterStep
    dsimp only
    rw [hb]
    dsimp only
    rw [if_pos hcond]
  have h3 : limiterStep cfg ⟨.sleeping, true, ts :: tl, t⟩ =
      ⟨.start, true, ts :: tl, ts + cfg.window_sec⟩ := by
    simp [limiterStep]
  have h4 : limiterStep cfg ⟨.start, true, ts :: tl, ts + cfg.window_sec⟩ =
      ⟨.blocked, true, ts :: tl, ts + cfg.window_sec⟩ := by
    simp [limiterStep]
  have hfix : ∀ m : ℕ, (limiterStep cfg)^[m]
      ⟨.blocked, true, ts :: tl, ts + cfg.window_sec⟩ =
      ⟨.blocked, true, ts :: tl, ts + cfg.window_sec⟩ := by
    intro m
    induction m with
    | zero => rfl
    | succ k ih => rw [Function.iterate_succ_apply]; exact ih
  have htraj : ∀ n : ℕ, (limiterStep cfg)^[n] ⟨.start, false, b, t⟩ =
      if n = 0 then ⟨.start, false, b, t⟩
      else if n = 1 then ⟨.critical, true, b, t⟩
      else if n = 2 then ⟨.sleeping, true, ts :: tl, t⟩
      else if n = 3 then ⟨.start, true, ts :: tl, ts + cfg.window_sec⟩
      else ⟨.blocked, true, ts :: tl, ts + cfg.window_sec⟩ := by
    intro n
    match n with
    | 0 => rfl
    | 1 => simp [Function.iterate_succ_apply, h1]
    | 2 => simp [Function.iterate_succ_apply, h1, h2]
    | 3 => simp [Function.iterate_succ_apply, h1, h2, h3]
    | (m + 4) =>
      have hsplit : (limiterStep cfg)^[m + 4] ⟨.start, false, b, t⟩ =
          (limiterStep cfg)^[m] ((limiterStep cfg)^[4] ⟨.start, false, b, t⟩) := by
        rw [← Function.iterate_add_apply]
      have h04 : (limiterStep cfg)^[4] ⟨.start, false, b, t⟩ =
          ⟨.blocked, true, ts :: tl, ts + cfg.window_sec⟩ := by
        simp [Function.iterate_succ_apply, h1, h2, h3, h4]
      rw [hsplit, h04, hfix m]
      have e0 : m + 4 ≠ 0 := by omega
      have e1 : m + 4 ≠ 1 := by omega
      have e2 : m + 4 ≠ 2 := by omega
      have e3 : m + 4 ≠ 3 := by omega
      rw [if_neg e0, if_neg e1, if_neg e2, if_neg e3]
  intro n
  rw [htraj n]
  constructor
  · by_cases e0 : n = 0
    · simp [e0]
    · by_cases e1 : n = 1
      · simp [e0, e1]
      · by_cases e2 : n = 2
        · simp [e0, e1, e2]
        · by_cases e3 : n = 3
          · simp [e0, e1, e2, e3]
          · simp [e0, e1, e2, e3]
  · intro h4n
    have e0 : n ≠ 0 := by omega
    have e1 : n ≠ 1 := by omega
    have e2 : n ≠ 2 := by omega
    have e3 : n ≠ 3 := by omega
    simp [e0, e1, e2, e3]

/-- C9 witness: a bucket of capacity 1 holding one in-window timestamp;
ten steps later the acquisition is still blocked, never done. -/
theorem limiter_full_bucket_deadlocks_witness :
    ((limiterStep ⟨1, 1⟩)^[10] ⟨.start, false, [0], 1/2⟩).pc ≠ LimiterPC.done ∧
      (4 ≤ 10 → ((limiterStep ⟨1, 1⟩)^[10] ⟨.start, false, [0], 1/2⟩).pc
        = LimiterPC.blocked) :=
  limiter_full_bucket_deadlocks ⟨1, 1⟩ [0] (1/2) (by norm_num)
    (by norm_num [pruneBucket]) 10

end GiftScan
